import Mathlib

/-!
Verification of the log-preprocessing core of the model-drift-detection
repository: a shallow embedding in Lean 4 of

  * `PreprocessingConfig._parse_time_str` and the duration-string validation
    (src/config/preprocessing_config.py),
  * `LogPreprocessor.parse_logs` for both list input and DataFrame input
    (src/preprocessing/log_preprocessor.py),
  * `LogPreprocessor.create_time_windows` (resample / filter / concat /
    groupby-aggregate),
  * `LogPreprocessor._minmax_normalize`, `_zscore_normalize` and
    `load_feature_stats`,

together with theorems settling the specification claims about them.

Modelling conventions:
  * Python character classes are embedded at ASCII precision
    (the log corpora and all claim inputs are ASCII).
  * A float NaN is represented by `Option.none`; float comparisons against
    NaN are `false`, as in IEEE semantics used by pandas.
  * `datetime` / pandas timestamps used by the windowing code are modelled
    as seconds since the epoch (`Nat`); calendar timestamps produced by the
    parsers are a six-field record validated like `datetime.__init__`.
  * Exceptions are `Except String`; an exception caught and turned into
    "skip this line" is `Option.none`.
-/

set_option maxHeartbeats 1000000

namespace DriftPre

/-! ### Character classes and Python `int()` (ASCII embedding) -/

/-- Python regex `\d` (ASCII): characters '0'..'9'. -/
def isDigitChar (c : Char) : Bool := 48 ≤ c.toNat && c.toNat ≤ 57

/-- Python regex `[a-zA-Z]` (ASCII). -/
def isAlphaChar (c : Char) : Bool :=
  (65 ≤ c.toNat && c.toNat ≤ 90) || (97 ≤ c.toNat && c.toNat ≤ 122)

/-- Python regex `\w` (ASCII): letters, digits and underscore. -/
def isWordChar (c : Char) : Bool := isAlphaChar c || isDigitChar c || c = '_'

/-- Python regex `\s` / `str.strip` whitespace (ASCII subset). -/
def isSpaceChar (c : Char) : Bool :=
  c = ' ' || c = '\t' || c = '\n' || c = '\r' || c.toNat = 11 || c.toNat = 12

/-- Numeric value of a digit string (most significant first). -/
def natOfDigits (ds : List Char) : Nat :=
  ds.foldl (fun a c => a * 10 + (c.toNat - 48)) 0

/-- `str.lower` on one ASCII character. -/
def lowerChar (c : Char) : Char :=
  if 65 ≤ c.toNat ∧ c.toNat ≤ 90 then Char.ofNat (c.toNat + 32) else c

/-- `str.lower` (ASCII embedding). -/
def lowerStr (cs : List Char) : List Char := cs.map lowerChar

/-- The longest prefix satisfying `p`, and the rest. -/
def spanP (p : Char → Bool) : List Char → List Char × List Char
  | [] => ([], [])
  | c :: cs =>
    if p c then
      let r := spanP p cs
      (c :: r.1, r.2)
    else ([], c :: cs)

/-- All-digit check used by `int()`. -/
def allDigits (ds : List Char) : Bool := ds.all isDigitChar

/-- Python `str.strip()` (ASCII whitespace). -/
def stripWs (cs : List Char) : List Char :=
  ((cs.dropWhile isSpaceChar).reverse.dropWhile isSpaceChar).reverse

/-- Python `int(s)`: optional surrounding whitespace, optional sign, a
nonempty digit string; anything else raises (here: `none`). -/
def pyInt (s : List Char) : Option Int :=
  let cs := stripWs s
  match cs with
  | [] => none
  | '+' :: ds => if ds ≠ [] ∧ allDigits ds then some (natOfDigits ds) else none
  | '-' :: ds => if ds ≠ [] ∧ allDigits ds then some (-(natOfDigits ds : Int)) else none
  | ds => if allDigits ds then some (natOfDigits ds) else none

/-! ### Calendar timestamps: `datetime(year, month, day, hour, minute, second)` -/

structure Datetime where
  year : Nat
  month : Nat
  day : Nat
  hour : Nat
  minute : Nat
  second : Nat

deriving DecidableEq, Repr

/-- Gregorian leap-year rule, as in Python's `calendar`/`datetime`. -/
def isLeapYear (y : Nat) : Bool := y % 4 = 0 && (y % 100 ≠ 0 || y % 400 = 0)

def daysInMonth (y m : Nat) : Nat :=
  if m = 2 then (if isLeapYear y then 29 else 28)
  else if m = 4 ∨ m = 6 ∨ m = 9 ∨ m = 11 then 30
  else 31

/-- `datetime.datetime(y, mo, d, h, mi, s)`: validates every field eagerly
and raises `ValueError` (here: `none`) on any out-of-range value. -/
def mkDatetime (y mo d h mi s : Int) : Option Datetime :=
  if 1 ≤ y ∧ y ≤ 9999 ∧ 1 ≤ mo ∧ mo ≤ 12 ∧
     1 ≤ d ∧ d ≤ (daysInMonth y.toNat mo.toNat : Int) ∧
     0 ≤ h ∧ h ≤ 23 ∧ 0 ≤ mi ∧ mi ≤ 59 ∧ 0 ≤ s ∧ s ≤ 59 then
    some ⟨y.toNat, mo.toNat, d.toNat, h.toNat, mi.toNat, s.toNat⟩
  else none

/-! ### `PreprocessingConfig._parse_time_str`

The source matches `re.match(r'(\d+)([a-zA-Z]+)', time_str)` (anchored at
the start only), converts the digit group with `int`, lowercases the letter
group and looks it up in the unit map; on no match or unknown unit it
raises `ValueError`.  The returned `pd.Timedelta` is embedded as a number
of seconds. -/

def unitSeconds (u : List Char) : Option Nat :=
  if u = ['s'] ∨ u = ['s', 'e', 'c'] then some 1
  else if u = ['m'] ∨ u = ['m', 'i', 'n'] then some 60
  else if u = ['h'] ∨ u = ['h', 'r'] then some 3600
  else if u = ['d'] ∨ u = ['d', 'a', 'y'] then some 86400
  else none

def parse_time_str (s : String) : Except String Nat :=
  if (spanP isDigitChar s.data).1 = [] then .error ("Invalid time format: " ++ s)
  else if (spanP isAlphaChar (spanP isDigitChar s.data).2).1 = [] then
    .error ("Invalid time format: " ++ s)
  else
    match unitSeconds (lowerStr (spanP isAlphaChar (spanP isDigitChar s.data).2).1) with
    | some m => .ok (natOfDigits (spanP isDigitChar s.data).1 * m)
    | none => .error "Invalid time unit"

/-- `__post_init__`'s duration validation: `_validate_window_size` plus the
`window_stride` part of `_validate_window_params` (the remaining validators
do not involve duration strings). -/
def durationValidationOk (window_size : String) (window_stride : Option String) : Bool :=
  (parse_time_str window_size).isOk &&
    (match window_stride with
     | none => true
     | some st => (parse_time_str st).isOk)

/-- Modelled from the spec: the duration grammar "positive integer followed
by a unit in {s, sec, m, min, h, hr, d, day} (case-insensitive)", covering
the whole string, with a strictly positive integer part. -/
def specDurationOk (s : String) : Bool :=
  let d := spanP isDigitChar s.data
  d.1 ≠ [] && 1 ≤ natOfDigits d.1 && (unitSeconds (lowerStr d.2)).isSome

/-! ### `parse_logs` on lists of raw lines (format parsers)

Each per-format branch of `LogPreprocessor.parse_logs` is embedded as a
function `String → Option (Datetime × List Char)`; every exception the
source catches (bad `int()`, `strptime` failure, `datetime` range error,
missing fields) is a `none`, which the caller turns into "skip this
line". -/

/-- Python `s.split(sep, maxsplit=n)` (single-character separator; empty
fields are kept, like Python). -/
def breakAt (sep : Char) : List Char → Option (List Char × List Char)
  | [] => none
  | c :: cs =>
    if c = sep then some ([], cs)
    else (breakAt sep cs).map (fun r => (c :: r.1, r.2))

def splitMax (sep : Char) : Nat → List Char → List (List Char)
  | 0, cs => [cs]
  | n + 1, cs =>
    match breakAt sep cs with
    | none => [cs]
    | some r => r.1 :: splitMax sep n r.2

/-- Python `s.split(sep)` without limit (a fuel of `length` splits is
always enough, since every split consumes the separator). -/
def splitAll (sep : Char) (cs : List Char) : List (List Char) :=
  splitMax sep cs.length cs

/-- Python `s.find(c, start)`: index of the first occurrence at or after
`start`, or `-1`. -/
def pyFind (c : Char) (cs : List Char) (start : Nat) : Int :=
  match (cs.drop start).findIdx? (· = c) with
  | some k => (start + k : Nat)
  | none => -1

/-- HDFS branch: split on the first three spaces, reassemble
`datetime(2000 + YY, MM, DD, HH, MM, SS)` from fixed slices, message is
the fourth part (everything after the thread id). -/
def parseHdfsLine (log : String) : Option (Datetime × List Char) :=
  let parts := splitMax ' ' 3 log.data
  if parts.length ≥ 4 then
    let date := parts.getD 0 []
    let time := parts.getD 1 []
    do
      let year ← pyInt ('2' :: '0' :: date.take 2)
      let month ← pyInt ((date.drop 2).take 2)
      let day ← pyInt (date.drop 4)
      let hour ← pyInt (time.take 2)
      let minute ← pyInt ((time.drop 2).take 2)
      let second ← pyInt (time.drop 4)
      let ts ← mkDatetime year month day hour minute second
      some (ts, parts.getD 3 [])
  else none

/-- Leftmost match of `re.search(r'\[([\w\s:]+)\]', log)`: returns the
captured group.  The character class excludes both brackets, so the match
is a literal `[`, a nonempty run of class characters, then `]`. -/
def matchBracketAt : List Char → Option (List Char)
  | [] => none
  | c :: cs =>
    if c = '[' then
      let g := spanP (fun x => isWordChar x || isSpaceChar x || x = ':') cs
      if g.1 ≠ [] ∧ g.2.head? = some ']' then some g.1 else none
    else none

def searchBracket : List Char → Option (List Char)
  | [] => none
  | c :: cs =>
    match matchBracketAt (c :: cs) with
    | some g => some g
    | none => searchBracket cs

/-- Words separated by whitespace runs (fueled; `length` fuel suffices). -/
def wordsOfAux : Nat → List Char → List (List Char)
  | 0, _ => []
  | n + 1, cs =>
    let cs' := cs.dropWhile isSpaceChar
    match cs' with
    | [] => []
    | _ =>
      let w := spanP (fun c => !isSpaceChar c) cs'
      w.1 :: wordsOfAux n w.2

def wordsOf (cs : List Char) : List (List Char) := wordsOfAux cs.length cs

def weekdayAbbrevs : List (List Char) :=
  [['m','o','n'], ['t','u','e'], ['w','e','d'], ['t','h','u'],
   ['f','r','i'], ['s','a','t'], ['s','u','n']]

def monthAbbrevs : List (List Char) :=
  [['j','a','n'], ['f','e','b'], ['m','a','r'], ['a','p','r'],
   ['m','a','y'], ['j','u','n'], ['j','u','l'], ['a','u','g'],
   ['s','e','p'], ['o','c','t'], ['n','o','v'], ['d','e','c']]

def monthNum (m : List Char) : Option Nat :=
  match monthAbbrevs.findIdx? (· = m) with
  | some i => some (i + 1)
  | none => none

/-- A 1-to-`maxLen`-digit numeric field of `strptime` (the range checks
are performed by `mkDatetime`, as by `datetime.__init__`). -/
def fieldNat (maxLen : Nat) (cs : List Char) : Option Nat :=
  if cs ≠ [] ∧ cs.length ≤ maxLen ∧ allDigits cs then some (natOfDigits cs) else none

/-- An exactly-`len`-digit numeric field (`%Y` takes exactly four). -/
def fieldNatExact (len : Nat) (cs : List Char) : Option Nat :=
  if cs.length = len ∧ allDigits cs then some (natOfDigits cs) else none

/-- `datetime.strptime(g, "%a %b %d %H:%M:%S %Y")`: whitespace in the
format matches whitespace runs, names are matched case-insensitively, the
whole string must be consumed, and `datetime` validates the ranges. -/
def strptimeApache (g : List Char) : Option Datetime :=
  if (g.head?.map isSpaceChar).getD false then none
  else if (g.getLast?.map isSpaceChar).getD false then none
  else
    match wordsOf g with
    | [wd, mon, dy, tm, yr] =>
      if lowerStr wd ∈ weekdayAbbrevs then
        do
          let mo ← monthNum (lowerStr mon)
          let d ← fieldNat 2 dy
          match splitAll ':' tm with
          | [hs, ms, ss] => do
            let h ← fieldNat 2 hs
            let mi ← fieldNat 2 ms
            let s ← fieldNat 2 ss
            let y ← fieldNatExact 4 yr
            mkDatetime y mo d h mi s
          | _ => none
      else none
    | _ => none

/-- Apache message split: everything after the second `]` of the line
(`log.find` returns -1 when absent, making the slice start at 0), then
`strip()`. -/
def apacheMessage (cs : List Char) : List Char :=
  let f1 := pyFind ']' cs 0
  let f2 := pyFind ']' cs (f1 + 1).toNat
  stripWs (cs.drop (f2 + 1).toNat)

def parseApacheLine (log : String) : Option (Datetime × List Char) := do
  let g ← searchBracket log.data
  let ts ← strptimeApache g
  some (ts, apacheMessage log.data)

/-- One position of the default-format regex
`(\d{4}-\d{2}-\d{2}\s+\d{2}:\d{2}:\d{2})`: on success, the six numeric
fields and the rest of the line after the match. -/
def take2d : List Char → Option (Nat × List Char)
  | a :: b :: r =>
    if isDigitChar a ∧ isDigitChar b then some (natOfDigits [a, b], r) else none
  | _ => none

def take4d : List Char → Option (Nat × List Char)
  | a :: b :: c :: d :: r =>
    if isDigitChar a ∧ isDigitChar b ∧ isDigitChar c ∧ isDigitChar d then
      some (natOfDigits [a, b, c, d], r)
    else none
  | _ => none

def expectChar (c : Char) : List Char → Option (List Char)
  | x :: r => if x = c then some r else none
  | [] => none

def takeWs1 (cs : List Char) : Option (List Char) :=
  match spanP isSpaceChar cs with
  | ([], _) => none
  | (_ :: _, r) => some r

def matchDefaultAt (cs : List Char) : Option ((Nat × Nat × Nat × Nat × Nat × Nat) × List Char) := do
  let (y, r) ← take4d cs
  let r ← expectChar '-' r
  let (mo, r) ← take2d r
  let r ← expectChar '-' r
  let (d, r) ← take2d r
  let r ← takeWs1 r
  let (h, r) ← take2d r
  let r ← expectChar ':' r
  let (mi, r) ← take2d r
  let r ← expectChar ':' r
  let (s, r) ← take2d r
  some ((y, mo, d, h, mi, s), r)

def searchDefault : List Char → Option ((Nat × Nat × Nat × Nat × Nat × Nat) × List Char)
  | [] => none
  | c :: cs =>
    match matchDefaultAt (c :: cs) with
    | some m => some m
    | none => searchDefault cs

/-- Default branch: leftmost regex match gives the timestamp substring
(re-parsed by `strptime` with the default `timestamp_format`, embedded
here at its default value), message is the rest of the line, stripped. -/
def parseDefaultLine (log : String) : Option (Datetime × List Char) := do
  let (f, rest) ← searchDefault log.data
  let ts ← mkDatetime f.1 f.2.1 f.2.2.1 f.2.2.2.1 f.2.2.2.2.1 f.2.2.2.2.2
  some (ts, stripWs rest)

/-- `datetime.strptime(t, "%Y%m%d-%H:%M:%S")` for the HealthApp timestamp,
embedded at the fixed widths of well-formed HealthApp stamps. -/
def strptimeHealth (cs : List Char) : Option Datetime := do
  let (y, r) ← take4d cs
  let (mo, r) ← take2d r
  let (d, r) ← take2d r
  let r ← expectChar '-' r
  let (h, r) ← take2d r
  let r ← expectChar ':' r
  let (mi, r) ← take2d r
  let r ← expectChar ':' r
  let (s, r) ← take2d r
  if r = [] then mkDatetime y mo d h mi s else none

/-- HealthApp branch: split on `|` into at least four parts; the timestamp
is the first three `:`-separated segments of part 0 (milliseconds
discarded; fewer than three segments is an IndexError, caught and turned
into a skip); the message rejoins parts 1..3 with `|`. -/
def parseHealthappLine (log : String) : Option (Datetime × List Char) :=
  let parts := splitAll '|' log.data
  if parts.length ≥ 4 then
    let segs := splitAll ':' (parts.getD 0 [])
    if segs.length ≥ 3 then
      match strptimeHealth (segs.getD 0 [] ++ ':' :: segs.getD 1 [] ++ ':' :: segs.getD 2 []) with
      | some ts => some (ts, parts.getD 1 [] ++ '|' :: parts.getD 2 [] ++ '|' :: parts.getD 3 [])
      | none => none
    else none
  else none

structure LogRecord where
  timestamp : Datetime
  message : String

deriving DecidableEq, Repr

/-- One iteration of the `parse_logs` loop over raw lines: dispatch on
`log_type` (any unknown value falls back to the default branch), then the
final `if timestamp and message` truthiness filter (an empty message is
falsy in Python and the pair is dropped). -/
def parseLine (log_type : String) (log : String) : Option LogRecord :=
  let tm : Option (Datetime × List Char) :=
    if log_type = "apache" then parseApacheLine log
    else if log_type = "hdfs" then parseHdfsLine log
    else if log_type = "healthapp" then parseHealthappLine log
    else parseDefaultLine log
  match tm with
  | some (t, m) => if m = [] then none else some ⟨t, String.mk m⟩
  | none => none

/-- `parse_logs` on a list of raw lines: every line that parses contributes
one record, every line whose branch raises or fails to match is skipped. -/
def parse_logs (log_type : String) (logs : List String) : List LogRecord :=
  logs.filterMap (parseLine log_type)

def hdfsSampleLine : String :=
  "081109 203518 148 INFO dfs.DataNode$PacketResponder: PacketResponder 1 for block blk_38865049064139660 terminating"

/-! ### `parse_logs` on DataFrame input (the frame-effect branch)

The DataFrame branch mutates the caller's object
(`logs['timestamp'] = pd.to_datetime(...)`) and then returns
`logs.copy()`.  Object identity is modelled with a small heap: a list of
DataFrame values addressed by index.  Only the two columns the branch
touches are modelled: the `timestamp` column (with its dtype) and the
`message` column. -/

inductive TsCol where
  | raw (vals : List String)
  | dt (vals : List Datetime)

deriving DecidableEq, Repr

structure PandasDF where
  tsCol : Option TsCol
  msgCol : Option (List String)

deriving DecidableEq, Repr

/-- One entry of `pd.to_datetime(column, format=...)` for the two format
strings the source passes (the config defaults; `exact=True`, so the whole
string must match). -/
def toDatetimeEntry (log_type : String) (s : String) : Option Datetime :=
  if log_type = "apache" then strptimeApache s.data
  else
    match matchDefaultAt s.data with
    | some (f, rest) =>
      if rest = [] then mkDatetime f.1 f.2.1 f.2.2.1 f.2.2.2.1 f.2.2.2.2.1 f.2.2.2.2.2
      else none
    | none => none

/-- `pd.to_datetime` over the column (`errors='raise'` default): converts
every entry or raises. -/
def convertCol (log_type : String) (vs : List String) : Except String (List Datetime) :=
  match vs.mapM (toDatetimeEntry log_type) with
  | some ds => .ok ds
  | none => .error "time data does not match format"

/-- The dtype check `pd.api.types.is_datetime64_any_dtype`: an already
datetime-typed column is returned unchanged, a raw column is converted. -/
def convertTs (log_type : String) : TsCol → Except String TsCol
  | .dt vs => .ok (.dt vs)
  | .raw vs => (convertCol log_type vs).map .dt

/-- The DataFrame branch of `parse_logs`: validate the two required
columns (raising on absence), convert the timestamp column in place on
the argument object, and return a fresh copy of it.  The result is the
updated heap together with the index of the returned object. -/
def parse_logs_df (log_type : String) (heap : List PandasDF) (i : Nat) :
    Except String (List PandasDF × Nat) :=
  match heap[i]? with
  | none => .error "invalid DataFrame reference"
  | some df =>
    match df.tsCol, df.msgCol with
    | some ts, some _ =>
      (match convertTs log_type ts with
       | .ok ts2 =>
         let df2 : PandasDF := { df with tsCol := some ts2 }
         let h2 := heap.set i df2
         .ok (h2 ++ [df2], h2.length)
       | .error e => .error e)
    | _, _ => .error "DataFrame must contain 'timestamp' and 'message' columns"

/-! ### `create_time_windows`

Timestamps are seconds since the epoch (`Nat`); a feature row is a
timestamp plus its numeric feature values.  `df.resample(freq)` buckets
the rows into half-open bins of `window_size` seconds anchored at the
start of the day of the earliest timestamp (pandas' `origin='start_day'`)
and iterates over every bin from the first to the last, empty bins
included.  The final `groupby(pd.Grouper(freq=window_size)).agg` applies
the same binning to the concatenation of the surviving windows and
aggregates each bin (an empty bin aggregates to an all-NaN row).  The
aggregate `std` is the square root of the ddof-1 variance: the variance
is stored in the row and the `std` column is the view `AggRow.std`. -/

abbrev FRow := Nat × List ℚ

structure TWConfig where
  window_size : Nat
  window_stride : Option Nat
  min_logs_per_window : Nat
  max_logs_per_window : Option Nat

deriving DecidableEq, Repr

def get_window_timedelta (c : TWConfig) : Nat := c.window_size

/-- `PreprocessingConfig.get_stride_timedelta`: the stride when set, the
window size otherwise. -/
def get_stride_timedelta (c : TWConfig) : Nat :=
  match c.window_stride with
  | none => c.window_size
  | some s => s

/-- Midnight of the day containing `t` (pandas `origin='start_day'`). -/
def dayStart (t : Nat) : Nat := t / 86400 * 86400

/-- The start of the bin containing `t`, for bins of width `W` anchored
at `a` (for `a ≤ t`). -/
def binOf (a W t : Nat) : Nat := a + (t - a) / W * W

def natListMin : List Nat → Nat
  | [] => 0
  | [t] => t
  | t :: ts => Nat.min t (natListMin ts)

def natListMax : List Nat → Nat
  | [] => 0
  | [t] => t
  | t :: ts => Nat.max t (natListMax ts)

def minT (rows : List FRow) : Nat := natListMin (rows.map Prod.fst)

def maxT (rows : List FRow) : Nat := natListMax (rows.map Prod.fst)

/-- All candidate bin starts of `resample`, from the bin of the earliest
timestamp to the bin of the latest, stepping by the window size. -/
def gridBins (W : Nat) (rows : List FRow) : List Nat :=
  if rows.isEmpty then []
  else
    (List.range ((binOf (dayStart (minT rows)) W (maxT rows) -
        binOf (dayStart (minT rows)) W (minT rows)) / W + 1)).map
      (fun k => binOf (dayStart (minT rows)) W (minT rows) + k * W)

/-- The member rows of the bin starting at `s`. -/
def rowsInBin (a W : Nat) (rows : List FRow) (s : Nat) : List FRow :=
  rows.filter (fun r => binOf a W r.1 == s)

/-- `window.head(max_logs_per_window)` under Python truthiness: applied
only when the configured maximum is set and nonzero. -/
def truncateWindow (mx : Option Nat) (l : List FRow) : List FRow :=
  match mx with
  | none => l
  | some m => if m = 0 then l else l.take m

/-- The candidate bins whose member count meets `min_logs_per_window`. -/
def survivingStarts (c : TWConfig) (rows : List FRow) : List Nat :=
  (gridBins c.window_size rows).filter
    (fun s => c.min_logs_per_window ≤
      (rowsInBin (dayStart (minT rows)) c.window_size rows s).length)

/-- The `valid_windows` list of the source: each surviving bin paired with
its (possibly truncated) member rows, in bin order. -/
def validWindows (c : TWConfig) (rows : List FRow) : List (Nat × List FRow) :=
  (gridBins c.window_size rows).filterMap (fun s =>
    if c.min_logs_per_window ≤
        (rowsInBin (dayStart (minT rows)) c.window_size rows s).length then
      some (s, truncateWindow c.max_logs_per_window
        (rowsInBin (dayStart (minT rows)) c.window_size rows s))
    else none)

def listMin : List ℚ → Option ℚ
  | [] => none
  | x :: xs => some (xs.foldl min x)

def listMax : List ℚ → Option ℚ
  | [] => none
  | x :: xs => some (xs.foldl max x)

/-- One aggregated cell group (`mean`, `std`, `min`, `max`) of one feature
column over the values retained in a window.  A missing value (pandas
NaN) is `none`: the mean/min/max of an empty column and the ddof-1
variance of fewer than two values are NaN. -/
structure AggRow where
  mean : Option ℚ
  var : Option ℚ
  min : Option ℚ
  max : Option ℚ

deriving DecidableEq, Repr

/-- The `std` aggregate column: the square root of the stored ddof-1
variance (`Series.std` default), NaN when the variance is NaN. -/
noncomputable def AggRow.std (r : AggRow) : Option ℝ :=
  r.var.map (fun q => Real.sqrt (q : ℝ))

def aggColumn (xs : List ℚ) : AggRow :=
  match xs with
  | [] => ⟨none, none, none, none⟩
  | _ :: _ =>
    { mean := some (xs.sum / xs.length)
      var := if xs.length ≤ 1 then none
             else some ((xs.map (fun x => (x - xs.sum / xs.length) ^ 2)).sum /
               ((xs.length : ℚ) - 1))
      min := listMin xs
      max := listMax xs }

/-- The values of feature column `j` over the rows of a window. -/
def colVals (j : Nat) (ms : List FRow) : List ℚ :=
  ms.filterMap (fun r => r.2.get? j)

/-- The aggregated output row of one window: one cell group per feature
column. -/
def aggWindow (k : Nat) (ms : List FRow) : List AggRow :=
  (List.range k).map (fun j => aggColumn (colVals j ms))

/-- The number of numeric feature columns of the data frame (all rows
share the column set). -/
def numCols (rows : List FRow) : Nat :=
  (rows.head?.map (fun r => r.2.length)).getD 0

/-- The retained rows of all surviving windows, in order (`pd.concat`). -/
def dfwRows (c : TWConfig) (rows : List FRow) : List FRow :=
  ((validWindows c rows).map Prod.snd).flatten

def create_time_windows (c : TWConfig) (rows : List FRow) :
    Except String (List (Nat × List AggRow)) :=
  if (validWindows c rows).isEmpty then
    .error "No valid time windows found with the current configuration"
  else
    .ok ((gridBins c.window_size (dfwRows c rows)).map
      (fun s =>
        (s, aggWindow (numCols (dfwRows c rows))
          (rowsInBin (dayStart (minT (dfwRows c rows)))
            c.window_size (dfwRows c rows) s))))

/-- The output index of `create_time_windows` (empty on error). -/
def ctwIndex (c : TWConfig) (rows : List FRow) : List Nat :=
  match create_time_windows c rows with
  | .ok l => l.map Prod.fst
  | .error _ => []

/-- The output row at window start `s` (none on error or absent index). -/
def ctwRow (c : TWConfig) (rows : List FRow) (s : Nat) : Option (List AggRow) :=
  match create_time_windows c rows with
  | .ok l => l.lookup s
  | .error _ => none

/-! ### C2: the stride is never consulted -/

def strideCfg : TWConfig := ⟨120, some 60, 1, none⟩

def strideRows : List FRow := [(0, [1]), (120, [2]), (240, [3])]

/-! ### C3: the std aggregate is the sample standard deviation -/

def singletonCfg : TWConfig := ⟨120, none, 1, none⟩

def singletonRows : List FRow := [(0, [5])]

/-- Modelled from the spec: the population standard deviation (ddof = 0)
of a list of values, which the spec asserts the std column to be. -/
noncomputable def specPopStd (xs : List ℚ) : ℝ :=
  Real.sqrt (((xs.map (fun x => (x - xs.sum / xs.length) ^ 2)).sum / xs.length : ℚ))

/-! ### C7 and C8: dropped windows, gaps and the windowing failure -/

def gapCfg : TWConfig := ⟨120, none, 2, none⟩

def gapRows : List FRow := [(0, [1]), (60, [2]), (130, [3]), (250, [4]), (300, [5])]

/-! ### Normalization (`_minmax_normalize`, `_zscore_normalize`,
`load_feature_stats`)

A table is a list of named numeric columns.  Both normalizers iterate
over the columns in order, fit-and-cache per-column statistics for
columns not yet in `feature_stats`, and rescale every column with the
cached entry; the two methods share this loop shape, embedded once as
`normalizeWith` and instantiated per method.  Float NaN statistics
(min/max/mean of an empty column, std of fewer than two values) are
`none`; a comparison against NaN is false, selecting the constant-column
branch that writes 0 to every row. -/

abbrev Tbl := List (String × List ℚ)

abbrev MMStats := List (String × (Option ℚ × Option ℚ))

abbrev ZStats := List (String × (Option ℚ × Option ℝ))

/-- The per-column rescaling of `_minmax_normalize`: `(v - min) / (max -
min)` when `max > min`, otherwise the whole column becomes 0. -/
def mmApply (mn mx : Option ℚ) (vs : List ℚ) : List ℚ :=
  match mn, mx with
  | some a, some b =>
    if a < b then vs.map (fun v => (v - a) / (b - a)) else vs.map (fun _ => 0)
  | _, _ => vs.map (fun _ => 0)

def listMeanOpt (vs : List ℚ) : Option ℚ :=
  match vs with
  | [] => none
  | _ :: _ => some (vs.sum / vs.length)

/-- `Series.std()` (ddof = 1) of a column, NaN for fewer than two values. -/
noncomputable def listStdOpt (vs : List ℚ) : Option ℝ :=
  if vs.length ≤ 1 then none
  else some (Real.sqrt (((vs.map (fun x => (x - vs.sum / vs.length) ^ 2)).sum /
    ((vs.length : ℚ) - 1) : ℚ)))

/-- The per-column rescaling of `_zscore_normalize`: `(v - mean) / std`
when `std > 0`, otherwise the whole column becomes 0. -/
noncomputable def zApply (mean : Option ℚ) (sd : Option ℝ) (vs : List ℚ) : List ℝ :=
  match mean, sd with
  | some m, some s =>
    if 0 < s then vs.map (fun v => ((v : ℝ) - (m : ℝ)) / s) else vs.map (fun _ => 0)
  | _, _ => vs.map (fun _ => 0)

/-- The shared column loop of both normalizers: fit-if-absent into the
stats map, then rescale with the (possibly previously) cached entry. -/
def normalizeWith {ε β : Type} (fit : List ℚ → ε) (app : ε → List ℚ → β) (dflt : ε) :
    List (String × ε) → Tbl → List (String × ε) × List (String × β)
  | st, [] => (st, [])
  | st, (name, vs) :: rest =>
    let st' := match st.lookup name with
      | some _ => st
      | none => st ++ [(name, fit vs)]
    let e := (st'.lookup name).getD dflt
    let res := normalizeWith fit app dflt st' rest
    (res.1, (name, app e vs) :: res.2)

def minmax_normalize (st : MMStats) (df : Tbl) : MMStats × Tbl :=
  normalizeWith (fun vs => (listMin vs, listMax vs)) (fun e vs => mmApply e.1 e.2 vs)
    (none, none) st df

noncomputable def zscore_normalize (st : ZStats) (df : Tbl) :
    ZStats × List (String × List ℝ) :=
  normalizeWith (fun vs => (listMeanOpt vs, listStdOpt vs)) (fun e vs => zApply e.1 e.2 vs)
    (none, none) st df

/-- `load_feature_stats`: the loaded statistics replace the in-memory
cache wholesale. -/
def load_feature_stats {α : Type} (loaded : α) (_current : α) : α := loaded

/-! ## Theorems -/

/-! ### Properties of `spanP` -/

theorem spanP_cons_pos {p : Char → Bool} {c : Char} (h : p c = true) (cs : List Char) :
    spanP p (c :: cs) = (c :: (spanP p cs).1, (spanP p cs).2) := by
  simp [spanP, h]

theorem spanP_cons_neg {p : Char → Bool} {c : Char} (h : p c = false) (cs : List Char) :
    spanP p (c :: cs) = ([], c :: cs) := by
  simp [spanP, h]

theorem spanP_append (p : Char → Bool) (l : List Char) :
    (spanP p l).1 ++ (spanP p l).2 = l := by
  induction l with
  | nil => rfl
  | cons c cs ih =>
    by_cases h : p c
    · rw [spanP_cons_pos h]; simpa using ih
    · rw [spanP_cons_neg (by simpa using h)]; rfl

theorem spanP_fst_all (p : Char → Bool) (l : List Char) :
    ∀ c ∈ (spanP p l).1, p c = true := by
  induction l with
  | nil => simp [spanP]
  | cons c cs ih =>
    by_cases h : p c
    · rw [spanP_cons_pos h]
      intro x hx
      rcases List.mem_cons.mp hx with h1 | h2
      · exact h1 ▸ h
      · exact ih x h2
    · rw [spanP_cons_neg (by simpa using h)]
      simp

theorem spanP_snd_head (p : Char → Bool) (l : List Char) :
    ∀ c, (spanP p l).2.head? = some c → p c = false := by
  induction l with
  | nil => simp [spanP]
  | cons c cs ih =>
    intro x hx
    by_cases h : p c
    · rw [spanP_cons_pos h] at hx
      exact ih x hx
    · rw [spanP_cons_neg (by simpa using h)] at hx
      simp at hx
      simpa [← hx] using h

theorem spanP_eq_of (p : Char → Bool) (d r : List Char)
    (hd : ∀ c ∈ d, p c = true) (hr : ∀ c, r.head? = some c → p c = false) :
    spanP p (d ++ r) = (d, r) := by
  induction d with
  | nil =>
    cases r with
    | nil => rfl
    | cons c cs => exact spanP_cons_neg (hr c rfl) cs
  | cons c cs ih =>
    have hc : p c = true := hd c (by simp)
    have ih' := ih (fun x hx => hd x (by simp [hx]))
    rw [List.cons_append, spanP_cons_pos hc, ih']

theorem alpha_not_digit {c : Char} (h : isAlphaChar c = true) : isDigitChar c = false := by
  simp [isAlphaChar, isDigitChar] at *
  omega

/-- C6 counterexample: the duration grammar of the spec rejects "0min"
(zero is not a positive integer) and "5min5" (trailing characters), yet
`_parse_time_str` accepts both — "0min" even yields the zero duration —
and configuration construction therefore succeeds on them. -/
theorem parse_time_str_counterexample :
    specDurationOk "0min" = false ∧ parse_time_str "0min" = .ok 0 ∧
    specDurationOk "5min5" = false ∧ (parse_time_str "5min5").isOk = true ∧
    durationValidationOk "0min" (some "5min5") = true :=
  ⟨by decide, by rfl, by decide, by decide, by decide⟩

/-- C6 (amended): duration parsing succeeds exactly on strings that start
with one or more digits followed by one or more ASCII letters whose
maximal letter run, lowercased, is a known unit (s, sec, m, min, h, hr, d,
day); the integer may be zero and anything after the letter run is
ignored.  The returned duration is the integer times the unit's seconds. -/
theorem parse_time_str_amended (s : String) (v : Nat) :
    parse_time_str s = .ok v ↔
      ∃ d u r m, s.data = d ++ u ++ r ∧ d ≠ [] ∧ (∀ c ∈ d, isDigitChar c = true) ∧
        u ≠ [] ∧ (∀ c ∈ u, isAlphaChar c = true) ∧
        (∀ c, r.head? = some c → isAlphaChar c = false) ∧
        unitSeconds (lowerStr u) = some m ∧ v = natOfDigits d * m := by
  constructor
  · intro h
    unfold parse_time_str at h
    by_cases h1 : (spanP isDigitChar s.data).1 = []
    · simp [h1] at h
    by_cases h2 : (spanP isAlphaChar (spanP isDigitChar s.data).2).1 = []
    · simp [h1, h2] at h
    rcases hm : unitSeconds (lowerStr (spanP isAlphaChar (spanP isDigitChar s.data).2).1)
      with _ | m
    · simp [h1, h2, hm] at h
    · rw [if_neg h1, if_neg h2, hm] at h
      refine ⟨(spanP isDigitChar s.data).1, (spanP isAlphaChar (spanP isDigitChar s.data).2).1,
        (spanP isAlphaChar (spanP isDigitChar s.data).2).2, m, ?_, h1, ?_, h2, ?_, ?_, hm, ?_⟩
      · rw [List.append_assoc, spanP_append, spanP_append]
      · exact spanP_fst_all _ _
      · exact spanP_fst_all _ _
      · exact spanP_snd_head _ _
      · exact (Except.ok.injEq _ _).mp h.symm
  · rintro ⟨d, u, r, m, hs, hd, hdall, hu, hual, hrh, hm, hv⟩
    have hr2 : ∀ c, (u ++ r).head? = some c → isDigitChar c = false := by
      intro c hc
      cases u with
      | nil => exact absurd rfl hu
      | cons a as =>
        simp at hc
        subst hc
        exact alpha_not_digit (hual a (by simp))
    have sp1 : spanP isDigitChar s.data = (d, u ++ r) := by
      rw [hs, List.append_assoc]
      exact spanP_eq_of _ _ _ hdall hr2
    have sp2 : spanP isAlphaChar (d, u ++ r).2 = (u, r) := spanP_eq_of _ _ _ hual hrh
    unfold parse_time_str
    rw [sp1, sp2]
    simp [hd, hu, hm, hv]

/-- C1 counterexample: on the sample HDFS line, `parse_logs` does not
produce the record claimed by the spec — the claimed message starts with
the thread id "148", but the code takes `parts[3]`, which is everything
after the thread id, so "148 " is absent from the parsed message. -/
theorem parse_logs_hdfs_counterexample :
    parse_logs "hdfs" [hdfsSampleLine] ≠
      [⟨⟨2008, 11, 9, 20, 35, 18⟩,
        "148 INFO dfs.DataNode$PacketResponder: PacketResponder 1 for block blk_38865049064139660 terminating"⟩] := by
  decide

/-- C1 (amended): the sample HDFS line parses to exactly one record with
timestamp 2008-11-09 20:35:18 and message
"INFO dfs.DataNode$PacketResponder: PacketResponder 1 for block
blk_38865049064139660 terminating" (the thread id "148" is consumed as
`parts[2]` and excluded from the message). -/
theorem parse_logs_hdfs_amended :
    parse_logs "hdfs" [hdfsSampleLine] =
      [⟨⟨2008, 11, 9, 20, 35, 18⟩,
        "INFO dfs.DataNode$PacketResponder: PacketResponder 1 for block blk_38865049064139660 terminating"⟩] := by
  decide

/-- C9: `parse_logs` on a list of lines is total for every `log_type`
(every exception in a branch is caught and becomes a skip): a line whose
branch produces no record is silently dropped without affecting the
parsing of the remaining lines, and the output has exactly one record per
line whose branch succeeds, so the caller sees a smaller record count and
never an exception. -/
theorem parse_logs_skips_malformed (log_type : String) :
    (∀ pre bad post, parseLine log_type bad = none →
      parse_logs log_type (pre ++ bad :: post) = parse_logs log_type (pre ++ post)) ∧
    (∀ logs : List String,
      (parse_logs log_type logs).length =
        (logs.filter (fun l => (parseLine log_type l).isSome)).length) := by
  constructor
  · intro pre bad post hbad
    simp [parse_logs, List.filterMap_append, List.filterMap_cons, hbad]
  · intro logs
    induction logs with
    | nil => rfl
    | cons l ls ih =>
      simp only [parse_logs] at ih
      cases h : parseLine log_type l
      · simp [parse_logs, List.filterMap_cons, List.filter_cons, h, ih]
      · simp [parse_logs, List.filterMap_cons, List.filter_cons, h, ih]

/-- Witness for C9 at a concrete input: dropping a malformed HDFS line
from a batch leaves the parse of the well-formed lines unchanged. -/
theorem parse_logs_skips_malformed_witness :
    parse_logs "hdfs" [hdfsSampleLine, "garbage line", hdfsSampleLine] =
      parse_logs "hdfs" [hdfsSampleLine, hdfsSampleLine] :=
  (parse_logs_skips_malformed "hdfs").1 [hdfsSampleLine] "garbage line" [hdfsSampleLine]
    (by decide)

/-- C10: when the argument DataFrame has both required columns and a raw
(non-datetime) timestamp column whose entries all convert, `parse_logs`
writes the converted column back into the caller's object (the heap cell
of the argument is mutated in place) and returns a distinct fresh object
whose value equals the mutated argument; overwriting the returned object
afterwards leaves the argument unchanged. -/
theorem parse_logs_df_frame_effect (log_type : String) (heap : List PandasDF) (i : Nat)
    (df : PandasDF) (rs : List String) (ms : List String) (ds : List Datetime)
    (hget : heap[i]? = some df)
    (hts : df.tsCol = some (.raw rs)) (hms : df.msgCol = some ms)
    (hconv : convertCol log_type rs = .ok ds) :
    ∃ h2 j, parse_logs_df log_type heap i = .ok (h2, j) ∧
      h2[i]? = some { df with tsCol := some (.dt ds) } ∧
      j ≠ i ∧ h2[j]? = h2[i]? ∧
      (∀ x, (h2.set j x)[i]? = h2[i]?) := by
  have hi : i < heap.length := by
    by_contra hle
    rw [List.getElem?_eq_none (by omega)] at hget
    exact Option.noConfusion hget
  have hcv : convertTs log_type (.raw rs) = .ok (.dt ds) := by
    simp [convertTs, hconv, Except.map]
  refine ⟨(heap.set i { df with tsCol := some (.dt ds) }) ++
      [{ df with tsCol := some (.dt ds) }], (heap.set i { df with tsCol := some (.dt ds) }).length,
      ?_, ?_, ?_, ?_, ?_⟩
  · simp only [parse_logs_df, hget, hts, hms, hcv]
  · rw [List.getElem?_append_left (by simpa using hi)]
    rw [List.getElem?_set_eq_of_lt _ (by simpa using hi)]
  · simp
    omega
  · rw [List.getElem?_concat_length]
    rw [List.getElem?_append_left (by simpa using hi),
      List.getElem?_set_eq_of_lt _ (by simpa using hi)]
  · intro x
    rw [List.getElem?_set_ne (by simp; omega)]

/-- Witness for C10 at a concrete heap: a one-frame heap whose timestamp
column holds one raw default-format stamp. -/
theorem parse_logs_df_frame_effect_witness :
    ∃ h2 j, parse_logs_df "default"
        [⟨some (.raw ["2024-03-15 10:00:00"]), some ["hello"]⟩] 0 = .ok (h2, j) ∧
      h2[0]? = some ⟨some (.dt [⟨2024, 3, 15, 10, 0, 0⟩]), some ["hello"]⟩ ∧
      j ≠ 0 ∧ h2[j]? = h2[0]? ∧
      (∀ x, (h2.set j x)[0]? = h2[0]?) :=
  parse_logs_df_frame_effect "default"
    [⟨some (.raw ["2024-03-15 10:00:00"]), some ["hello"]⟩] 0
    ⟨some (.raw ["2024-03-15 10:00:00"]), some ["hello"]⟩ ["2024-03-15 10:00:00"] ["hello"]
    [⟨2024, 3, 15, 10, 0, 0⟩] rfl rfl rfl rfl

/-! ### Structural lemmas about the binning grid -/

theorem natListMin_le (l : List Nat) : ∀ t ∈ l, natListMin l ≤ t := by
  induction l with
  | nil => simp
  | cons a as ih =>
    intro t ht
    cases as with
    | nil =>
      rcases List.mem_cons.mp ht with rfl | h2
      · exact Nat.le_refl _
      · simp at h2
    | cons b bs =>
      have hmin : natListMin (a :: b :: bs) = Nat.min a (natListMin (b :: bs)) := rfl
      rcases List.mem_cons.mp ht with rfl | h2
      · rw [hmin]; exact Nat.min_le_left _ _
      · rw [hmin]; exact le_trans (Nat.min_le_right _ _) (ih t h2)

theorem le_natListMax (l : List Nat) : ∀ t ∈ l, t ≤ natListMax l := by
  induction l with
  | nil => simp
  | cons a as ih =>
    intro t ht
    cases as with
    | nil =>
      rcases List.mem_cons.mp ht with rfl | h2
      · exact Nat.le_refl _
      · simp at h2
    | cons b bs =>
      have hmax : natListMax (a :: b :: bs) = Nat.max a (natListMax (b :: bs)) := rfl
      rcases List.mem_cons.mp ht with rfl | h2
      · rw [hmax]; exact Nat.le_max_left _ _
      · rw [hmax]; exact le_trans (ih t h2) (Nat.le_max_right _ _)

theorem minT_le (rows : List FRow) (r : FRow) (hr : r ∈ rows) : minT rows ≤ r.1 :=
  natListMin_le _ r.1 (List.mem_map.mpr ⟨r, hr, rfl⟩)

theorem le_maxT (rows : List FRow) (r : FRow) (hr : r ∈ rows) : r.1 ≤ maxT rows :=
  le_natListMax _ r.1 (List.mem_map.mpr ⟨r, hr, rfl⟩)

theorem dayStart_le (t : Nat) : dayStart t ≤ t := Nat.div_mul_le_self t 86400

/-- When the window size divides one day, every day-anchored bin start
collapses to the epoch-anchored one: the anchor becomes irrelevant. -/
theorem binOf_dayStart (W : Nat) (hW : 0 < W) (hdvd : W ∣ 86400) (u t : Nat)
    (hut : dayStart u ≤ t) : binOf (dayStart u) W t = t / W * W := by
  have h86 : (86400 : Nat) ∣ dayStart u := ⟨u / 86400, by rw [dayStart]; ring⟩
  obtain ⟨q, hq⟩ := dvd_trans hdvd h86
  have hle : W * q ≤ t := by rw [← hq]; exact hut
  have key : t / W = (t - W * q) / W + q := by
    conv_lhs => rw [show t = t - W * q + W * q from by omega]
    exact Nat.add_mul_div_left _ _ hW
  rw [binOf, hq, key]
  ring

/-- Under the same divisibility, the bin filter compares the
epoch-anchored bin of each member. -/
theorem rowsInBin_align (W : Nat) (hW : 0 < W) (hdvd : W ∣ 86400)
    (l : List FRow) (s : Nat) :
    rowsInBin (dayStart (minT l)) W l s = l.filter (fun r => r.1 / W * W == s) := by
  apply List.filter_congr
  intro r hr
  rw [binOf_dayStart W hW hdvd (minT l) r.1 (le_trans (dayStart_le _) (minT_le l r hr))]

theorem gridBins_nodup (W : Nat) (hW : 0 < W) (l : List FRow) : (gridBins W l).Nodup := by
  rw [gridBins]
  split
  · exact List.nodup_nil
  · apply List.Nodup.map _ (List.nodup_range _)
    intro k1 k2 hk
    have h2 := Nat.add_left_cancel hk
    exact Nat.eq_of_mul_eq_mul_right hW h2

/-- The epoch-anchored bin of every member row is a candidate bin. -/
theorem bin_mem_gridBins (W : Nat) (hW : 0 < W) (hdvd : W ∣ 86400) (l : List FRow)
    (r : FRow) (hr : r ∈ l) : r.1 / W * W ∈ gridBins W l := by
  have hne : l ≠ [] := by rintro rfl; simp at hr
  have hlo : binOf (dayStart (minT l)) W (minT l) = minT l / W * W :=
    binOf_dayStart W hW hdvd (minT l) (minT l) (dayStart_le _)
  have hhi : binOf (dayStart (minT l)) W (maxT l) = maxT l / W * W :=
    binOf_dayStart W hW hdvd (minT l) (maxT l)
      (le_trans (dayStart_le _) (le_trans (minT_le l r hr) (le_maxT l r hr)))
  rw [gridBins, if_neg (by simpa [List.isEmpty_iff] using hne), hlo, hhi]
  have hpq : minT l / W ≤ r.1 / W := Nat.div_le_div_right (minT_le l r hr)
  have hqm : r.1 / W ≤ maxT l / W := Nat.div_le_div_right (le_maxT l r hr)
  refine List.mem_map.mpr ⟨r.1 / W - minT l / W, List.mem_range.mpr ?_, ?_⟩
  · have hsub : (maxT l / W * W - minT l / W * W) / W = maxT l / W - minT l / W := by
      rw [← Nat.sub_mul, Nat.mul_div_cancel _ hW]
    rw [hsub]
    omega
  · have h : minT l / W + (r.1 / W - minT l / W) = r.1 / W := by omega
    rw [← Nat.add_mul, h]

theorem truncateWindow_subset (mx : Option Nat) (l : List FRow) :
    ∀ r ∈ truncateWindow mx l, r ∈ l := by
  intro r hr
  cases mx with
  | none => exact hr
  | some m =>
    rw [truncateWindow] at hr
    split at hr
    · exact hr
    · exact List.take_subset _ _ hr

theorem truncateWindow_ne_nil (mx : Option Nat) (l : List FRow) (h : l ≠ []) :
    truncateWindow mx l ≠ [] := by
  cases mx with
  | none => exact h
  | some m =>
    rw [truncateWindow]
    split
    · exact h
    · rcases l with _ | ⟨x, xs⟩
      · exact absurd rfl h
      · rcases m with _ | m'
        · simp_all
        · simp [List.take]

theorem validWindows_mem_spec (c : TWConfig) (rows : List FRow) (p : Nat × List FRow)
    (hp : p ∈ validWindows c rows) :
    p.1 ∈ gridBins c.window_size rows ∧
    c.min_logs_per_window ≤
      (rowsInBin (dayStart (minT rows)) c.window_size rows p.1).length ∧
    p.2 = truncateWindow c.max_logs_per_window
      (rowsInBin (dayStart (minT rows)) c.window_size rows p.1) := by
  obtain ⟨s, hs, hsome⟩ := List.mem_filterMap.mp hp
  by_cases h : c.min_logs_per_window ≤
      (rowsInBin (dayStart (minT rows)) c.window_size rows s).length
  · rw [if_pos h] at hsome
    obtain rfl := Option.some.inj hsome
    exact ⟨hs, h, rfl⟩
  · rw [if_neg h] at hsome
    exact absurd hsome (by simp)

theorem validWindows_map_fst (c : TWConfig) (rows : List FRow) :
    (validWindows c rows).map Prod.fst = survivingStarts c rows := by
  rw [validWindows, survivingStarts]
  induction gridBins c.window_size rows with
  | nil => rfl
  | cons s l ih =>
    rw [List.filterMap_cons, List.filter_cons]
    by_cases h : c.min_logs_per_window ≤
        (rowsInBin (dayStart (minT rows)) c.window_size rows s).length
    · rw [if_pos h, if_pos (by simpa using h)]
      simp only [List.map_cons, ih]
    · rw [if_neg h, if_neg (by simpa using h)]
      exact ih

theorem validWindows_snd_ne_nil (c : TWConfig) (rows : List FRow)
    (hmin : 1 ≤ c.min_logs_per_window) :
    ∀ p ∈ validWindows c rows, p.2 ≠ [] := by
  intro p hp
  obtain ⟨_, hlen, heq⟩ := validWindows_mem_spec c rows p hp
  rw [heq]
  apply truncateWindow_ne_nil
  intro hnil
  rw [hnil] at hlen
  simp at hlen
  omega

theorem lookup_map_pair {β : Type} (l : List Nat) (f : Nat → β) (hnd : l.Nodup)
    (s : Nat) (hs : s ∈ l) :
    (l.map (fun t => (t, f t))).lookup s = some (f s) := by
  induction l with
  | nil => simp at hs
  | cons a l' ih =>
    rcases List.mem_cons.mp hs with rfl | hs'
    · simp [List.lookup]
    · have hne : (s == a) = false := by
        have : s ≠ a := by
          intro h
          subst h
          exact (List.nodup_cons.mp hnd).1 hs'
        simpa using this
      show (match s == a with
        | true => some (f a)
        | false => (l'.map (fun t => (t, f t))).lookup s) = some (f s)
      rw [hne]
      exact ih (List.nodup_cons.mp hnd).2 hs'

theorem lookup_filterMap_if {β : Type} (l : List Nat) (p : Nat → Prop) [DecidablePred p]
    (f : Nat → β) (hnd : l.Nodup) (s : Nat) (hs : s ∈ l) (hps : p s) :
    (l.filterMap (fun t => if p t then some (t, f t) else none)).lookup s = some (f s) := by
  induction l with
  | nil => simp at hs
  | cons a l' ih =>
    rw [List.filterMap_cons]
    rcases List.mem_cons.mp hs with rfl | hs'
    · rw [if_pos hps]
      simp [List.lookup]
    · have hane : (s == a) = false := by
        have : s ≠ a := by
          intro h
          subst h
          exact (List.nodup_cons.mp hnd).1 hs'
        simpa using this
      by_cases hpa : p a
      · rw [if_pos hpa]
        show (match s == a with
          | true => some (f a)
          | false => (l'.filterMap (fun t => if p t then some (t, f t) else none)).lookup s) =
            some (f s)
        rw [hane]
        exact ih (List.nodup_cons.mp hnd).2 hs'
      · rw [if_neg hpa]
        exact ih (List.nodup_cons.mp hnd).2 hs'

theorem lookup_filterMap_none {β : Type} (l : List Nat) (p : Nat → Prop) [DecidablePred p]
    (f : Nat → β) (s : Nat) (hs : ∀ t ∈ l, ¬(p t ∧ t = s)) :
    (l.filterMap (fun t => if p t then some (t, f t) else none)).lookup s = none := by
  induction l with
  | nil => rfl
  | cons a l' ih =>
    rw [List.filterMap_cons]
    have ih' := ih (fun t ht => hs t (List.mem_cons_of_mem _ ht))
    by_cases hpa : p a
    · rw [if_pos hpa]
      have hane : (s == a) = false := by
        have : s ≠ a := fun h => hs a (List.mem_cons_self _ _) ⟨hpa, h.symm⟩
        simpa using this
      show (match s == a with
        | true => some (f a)
        | false => (l'.filterMap (fun t => if p t then some (t, f t) else none)).lookup s) =
          none
      rw [hane]
      exact ih'
    · rw [if_neg hpa]
      exact ih'

/-- The central concat/regroup correspondence: filtering the concatenation
of the surviving windows by a bin start recovers exactly that window's
rows (or nothing, when the bin did not survive). -/
theorem flatten_filter_bins (W : Nat) (s : Nat) (ws : List (Nat × List FRow))
    (hall : ∀ p ∈ ws, ∀ r ∈ p.2, r.1 / W * W = p.1)
    (hnd : (ws.map Prod.fst).Nodup) :
    ((ws.map Prod.snd).flatten).filter (fun r => r.1 / W * W == s) =
      ((ws.lookup s).getD []) := by
  induction ws with
  | nil => rfl
  | cons p ps ih =>
    obtain ⟨t, w⟩ := p
    simp only [List.map_cons, List.flatten_cons, List.filter_append]
    have hnd' : (ps.map Prod.fst).Nodup := (List.nodup_cons.mp hnd).2
    have hall' : ∀ q ∈ ps, ∀ r ∈ q.2, r.1 / W * W = q.1 :=
      fun q hq => hall q (List.mem_cons_of_mem _ hq)
    rw [ih hall' hnd']
    by_cases hts : t = s
    · subst hts
      have hfw : w.filter (fun r => r.1 / W * W == t) = w := by
        rw [List.filter_eq_self]
        intro r hr
        simp [hall (t, w) (List.mem_cons_self _ _) r hr]
      have hpn : ps.lookup t = none := by
        rw [List.lookup_eq_none_iff]
        intro q hq
        have : t ≠ q.1 := by
          intro h
          exact (List.nodup_cons.mp hnd).1 (h ▸ List.mem_map.mpr ⟨q, hq, rfl⟩)
        simpa using this
      rw [hfw, hpn]
      simp [List.lookup]
    · have hfw : w.filter (fun r => r.1 / W * W == s) = [] := by
        rw [List.filter_eq_nil_iff]
        intro r hr
        simp [hall (t, w) (List.mem_cons_self _ _) r hr]
        exact hts
      have hne : (s == t) = false := by
        have : s ≠ t := fun h => hts h.symm
        simpa using this
      rw [hfw]
      show [] ++ (ps.lookup s).getD [] =
        ((match s == t with
          | true => some w
          | false => ps.lookup s).getD [])
      rw [hne]
      simp

/-- The surviving start list inherits the grid's freedom from duplicates. -/
theorem survivingStarts_nodup (c : TWConfig) (rows : List FRow) (hW : 0 < c.window_size) :
    (survivingStarts c rows).Nodup :=
  List.Nodup.sublist (List.filter_sublist _) (gridBins_nodup _ hW rows)

theorem dfw_filter (c : TWConfig) (rows : List FRow) (hW : 0 < c.window_size)
    (hdvd : c.window_size ∣ 86400) (s : Nat) :
    rowsInBin (dayStart (minT (dfwRows c rows))) c.window_size (dfwRows c rows) s =
      (((validWindows c rows).lookup s).getD []) := by
  rw [dfwRows, rowsInBin_align _ hW hdvd]
  apply flatten_filter_bins
  · intro p hp r hr
    obtain ⟨hmem, hlen, heq⟩ := validWindows_mem_spec c rows p hp
    rw [heq] at hr
    have hr' : r ∈ rowsInBin (dayStart (minT rows)) c.window_size rows p.1 :=
      truncateWindow_subset _ _ r hr
    have hrow : r ∈ rows := (List.mem_filter.mp hr').1
    have hbin : binOf (dayStart (minT rows)) c.window_size r.1 = p.1 := by
      have h2 := (List.mem_filter.mp hr').2
      simpa using h2
    rw [← hbin]
    exact (binOf_dayStart _ hW hdvd _ _
      (le_trans (dayStart_le _) (minT_le rows r hrow))).symm
  · rw [validWindows_map_fst]
    exact survivingStarts_nodup c rows hW

/-- Unfolding of `ctwRow` on the success path. -/
theorem ctwRow_ok (c : TWConfig) (rows : List FRow)
    (hv : ¬(validWindows c rows).isEmpty = true) (s : Nat) :
    ctwRow c rows s = ((gridBins c.window_size (dfwRows c rows)).map
      (fun t => (t, aggWindow (numCols (dfwRows c rows))
        (rowsInBin (dayStart (minT (dfwRows c rows))) c.window_size
          (dfwRows c rows) t)))).lookup s := by
  rw [ctwRow, create_time_windows, if_neg hv]

/-- Unfolding of `ctwIndex` on the success path. -/
theorem ctwIndex_ok (c : TWConfig) (rows : List FRow)
    (hv : ¬(validWindows c rows).isEmpty = true) :
    ctwIndex c rows = gridBins c.window_size (dfwRows c rows) := by
  rw [ctwIndex, create_time_windows, if_neg hv]
  show ((gridBins c.window_size (dfwRows c rows)).map _).map Prod.fst = _
  rw [List.map_map]
  exact List.map_id _

/-- C2 counterexample: with window_size "2min" and window_stride "1min",
the candidate windows produced by create_time_windows start at 0, 120 and
240 seconds — they advance by the window size (120 s), not by the
configured stride (60 s), although get_stride_timedelta reports 60 s. -/
theorem ctw_stride_counterexample :
    get_stride_timedelta strideCfg = 60 ∧
    ctwIndex strideCfg strideRows = [0, 120, 240] ∧
    (120 : Nat) - 0 ≠ get_stride_timedelta strideCfg := by
  decide

/-- Every entry of the candidate bin grid is the first bin start plus its
position times the window size. -/
theorem gridBins_getElem (W : Nat) (rows : List FRow) (i a : Nat)
    (h : (gridBins W rows)[i]? = some a) :
    a = binOf (dayStart (minT rows)) W (minT rows) + i * W := by
  rw [gridBins] at h
  split at h
  · simp at h
  · rw [List.getElem?_map] at h
    rcases hk : (List.range ((binOf (dayStart (minT rows)) W (maxT rows) -
        binOf (dayStart (minT rows)) W (minT rows)) / W + 1))[i]? with _ | k
    · rw [hk] at h; simp at h
    · rw [hk] at h
      simp only [Option.map_some', Option.some.injEq] at h
      rcases List.getElem?_eq_some_iff.mp hk with ⟨hlt, hval⟩
      rw [List.getElem_range] at hval
      rw [← hval] at h
      exact h.symm

/-- C2 (amended): create_time_windows never consults window_stride — its
output is invariant under replacing the stride by any other value — and
consecutive candidate window starts always advance by exactly
window_size; when window_stride is unset, get_stride_timedelta falls back
to the window size (non-overlapping windows). -/
theorem ctw_ignores_stride (c : TWConfig) (s1 s2 : Option Nat) (rows : List FRow) :
    create_time_windows { c with window_stride := s1 } rows =
      create_time_windows { c with window_stride := s2 } rows ∧
    (∀ i a b, (gridBins c.window_size rows)[i]? = some a →
      (gridBins c.window_size rows)[i + 1]? = some b → b = a + c.window_size) ∧
    get_stride_timedelta { c with window_stride := none } = c.window_size := by
  refine ⟨rfl, ?_, rfl⟩
  intro i a b ha hb
  rw [gridBins_getElem c.window_size rows i a ha,
    gridBins_getElem c.window_size rows (i + 1) b hb]
  ring

/-- Witness for C2 at the concrete stride configuration. -/
theorem ctw_ignores_stride_witness :
    create_time_windows { strideCfg with window_stride := some 60 } strideRows =
      create_time_windows { strideCfg with window_stride := none } strideRows ∧
    (120 : Nat) = 0 + strideCfg.window_size :=
  ⟨(ctw_ignores_stride strideCfg (some 60) none strideRows).1,
   (ctw_ignores_stride strideCfg (some 60) none strideRows).2.1 0 0 120
     (by decide) (by decide)⟩

/-- C3 counterexample: a valid window retaining exactly one record has an
std cell that is NaN (missing), while the population standard deviation
of a single value is 0 — the claim's "std of a single-record window is 0"
fails on the code. -/
theorem ctw_std_counterexample :
    (ctwRow singletonCfg singletonRows 0).map (List.map AggRow.std) = some [none] ∧
    specPopStd [(5 : ℚ)] = 0 ∧ (none : Option ℝ) ≠ some 0 := by
  refine ⟨rfl, ?_, by simp⟩
  have h0 : (([(5 : ℚ)].map (fun x => (x - [(5 : ℚ)].sum / [(5 : ℚ)].length) ^ 2)).sum /
      ([(5 : ℚ)].length : ℚ)) = 0 := by norm_num
  rw [specPopStd, h0]
  simp [Real.sqrt_zero]

/-- C3 (amended): the std cell of an aggregated window column is the
sample (ddof = 1) standard deviation, not the population one: for a
column of at least two retained values it is the nonnegative real whose
square is the sum of squared deviations from the mean divided by n - 1,
and for a single retained value it is NaN (missing), not 0. -/
theorem agg_std_amended (xs : List ℚ) :
    (xs.length = 1 → (aggColumn xs).std = none) ∧
    (2 ≤ xs.length → ∃ s : ℝ, (aggColumn xs).std = some s ∧ 0 ≤ s ∧
      s ^ 2 = (((xs.map (fun x => (x - xs.sum / xs.length) ^ 2)).sum /
        ((xs.length : ℚ) - 1) : ℚ) : ℝ)) := by
  constructor
  · intro h1
    rcases xs with _ | ⟨x, xs'⟩
    · simp at h1
    · have : xs'.length = 0 := by simpa using h1
      have hx : xs' = [] := List.length_eq_zero.mp this
      subst hx
      simp [aggColumn, AggRow.std]
  · intro h2
    rcases xs with _ | ⟨x, xs'⟩
    · simp at h2
    · have hlen : ¬((x :: xs').length ≤ 1) := by
        simp only [List.length_cons]
        simp at h2
        omega
      have hvar : (aggColumn (x :: xs')).var =
          some (((x :: xs').map
            (fun t => (t - (x :: xs').sum / (x :: xs').length) ^ 2)).sum /
              (((x :: xs').length : ℚ) - 1)) := by
        rw [show aggColumn (x :: xs') =
            { mean := some ((x :: xs').sum / (x :: xs').length)
              var := if (x :: xs').length ≤ 1 then none
                     else some (((x :: xs').map
                       (fun t => (t - (x :: xs').sum / (x :: xs').length) ^ 2)).sum /
                         (((x :: xs').length : ℚ) - 1))
              min := listMin (x :: xs')
              max := listMax (x :: xs') } from rfl]
        rw [if_neg hlen]
      refine ⟨Real.sqrt ((((x :: xs').map
          (fun t => (t - (x :: xs').sum / (x :: xs').length) ^ 2)).sum /
            (((x :: xs').length : ℚ) - 1) : ℚ) : ℝ), ?_, Real.sqrt_nonneg _, ?_⟩
      · unfold AggRow.std
        rw [hvar]
        rfl
      · apply Real.sq_sqrt
        have hnum : (0 : ℚ) ≤ ((x :: xs').map
            (fun t => (t - (x :: xs').sum / (x :: xs').length) ^ 2)).sum := by
          apply List.sum_nonneg
          intro a ha
          simp only [List.mem_map] at ha
          obtain ⟨t, _, rfl⟩ := ha
          positivity
        have hden : (0 : ℚ) ≤ ((x :: xs').length : ℚ) - 1 := by
          have : (2 : ℚ) ≤ ((x :: xs').length : ℚ) := by exact_mod_cast h2
          linarith
        have := div_nonneg hnum hden
        exact_mod_cast this

/-- C7 counterexample: with min_logs_per_window = 2, the middle window
(start 120) holds only one record and is dropped, yet the output index is
[0, 120, 240] — not just the surviving starts [0, 240] — and the dropped
window contributes a padded all-NaN row instead of a gap. -/
theorem ctw_gap_counterexample :
    survivingStarts gapCfg gapRows = [0, 240] ∧
    ctwIndex gapCfg gapRows = [0, 120, 240] ∧
    ctwRow gapCfg gapRows 120 = some [⟨none, none, none, none⟩] := by
  decide

/-- C8: create_time_windows raises exactly when no candidate window holds
at least min_logs_per_window records, and on success the returned table is
never empty. -/
theorem ctw_error_iff (c : TWConfig) (rows : List FRow)
    (hmin : 1 ≤ c.min_logs_per_window) :
    ((create_time_windows c rows).isOk ↔ survivingStarts c rows ≠ []) ∧
    (∀ out, create_time_windows c rows = .ok out → out ≠ []) := by
  have hvs := validWindows_map_fst c rows
  have hiff : validWindows c rows = [] ↔ survivingStarts c rows = [] := by
    constructor
    · intro h; rw [← hvs, h]; rfl
    · intro h; rw [← hvs] at h; exact List.map_eq_nil_iff.mp h
  constructor
  · constructor
    · intro hok hnil
      have hemp : (validWindows c rows).isEmpty = true := by
        rw [List.isEmpty_iff]; exact hiff.mpr hnil
      rw [create_time_windows, if_pos hemp] at hok
      simp [Except.isOk, Except.toBool] at hok
    · intro hne
      have hv : ¬(validWindows c rows).isEmpty = true := by
        rw [List.isEmpty_iff]; exact fun h => hne (hiff.mp h)
      rw [create_time_windows, if_neg hv]
      rfl
  · intro out hout
    have hv : ¬(validWindows c rows).isEmpty = true := by
      intro hemp
      rw [create_time_windows, if_pos hemp] at hout
      exact Except.noConfusion hout
    rw [create_time_windows, if_neg hv] at hout
    have hvne : validWindows c rows ≠ [] := fun h => hv (List.isEmpty_iff.mpr h)
    have hdfwne : dfwRows c rows ≠ [] := by
      rcases hvv : validWindows c rows with _ | ⟨p, ps⟩
      · exact absurd hvv hvne
      · have hpne : p.2 ≠ [] :=
          validWindows_snd_ne_nil c rows hmin p (by rw [hvv]; exact List.mem_cons_self _ _)
        rw [dfwRows, hvv]
        simp only [List.map_cons, List.flatten_cons]
        intro happ
        exact hpne (List.append_eq_nil.mp happ).1
    obtain rfl := (Except.ok.inj hout).symm
    intro hnil
    rw [List.map_eq_nil_iff] at hnil
    rw [gridBins, if_neg (by simpa [List.isEmpty_iff] using hdfwne)] at hnil
    rw [List.map_eq_nil_iff, List.range_eq_nil] at hnil
    exact Nat.succ_ne_zero _ hnil

/-- Witness for C8 at concrete data: the sparse configuration errors, the
reachable one returns a non-empty table. -/
theorem ctw_error_iff_witness :
    ((create_time_windows ⟨120, none, 6, none⟩ gapRows).isOk ↔
      survivingStarts ⟨120, none, 6, none⟩ gapRows ≠ []) ∧
    (∀ out, create_time_windows ⟨120, none, 6, none⟩ gapRows = .ok out → out ≠ []) :=
  ctw_error_iff ⟨120, none, 6, none⟩ gapRows (by decide)

/-- C7 (amended): every window meeting the count threshold contributes the
aggregate of its retained rows at its start time; but a candidate window
below the threshold whose start still falls in the output grid appears as
a padded all-NaN row (aggregating an empty record set), not as a gap.
Stated for window sizes dividing one day, where the day-anchored grids of
the two pandas groupings coincide. -/
theorem ctw_window_gaps_amended (c : TWConfig) (rows : List FRow)
    (hW : 0 < c.window_size) (hdvd : c.window_size ∣ 86400)
    (hmin : 1 ≤ c.min_logs_per_window) :
    (∀ s ∈ survivingStarts c rows,
      ctwRow c rows s = some (aggWindow (numCols (dfwRows c rows))
        (truncateWindow c.max_logs_per_window
          (rowsInBin (dayStart (minT rows)) c.window_size rows s)))) ∧
    (∀ s, s ∈ ctwIndex c rows → s ∉ survivingStarts c rows →
      ctwRow c rows s =
        some (List.replicate (numCols (dfwRows c rows)) ⟨none, none, none, none⟩)) := by
  have hagg0 : aggWindow (numCols (dfwRows c rows)) [] =
      List.replicate (numCols (dfwRows c rows)) ⟨none, none, none, none⟩ := by
    rw [aggWindow]
    rw [show (fun j => aggColumn (colVals j ([] : List FRow))) =
        (fun _ => (⟨none, none, none, none⟩ : AggRow)) from rfl]
    rw [List.map_const', List.length_range]
  constructor
  · intro s hs
    obtain ⟨hsg, hlenb⟩ := List.mem_filter.mp hs
    have hlen : c.min_logs_per_window ≤
        (rowsInBin (dayStart (minT rows)) c.window_size rows s).length := by
      simpa using hlenb
    have hv : ¬(validWindows c rows).isEmpty = true := by
      rw [List.isEmpty_iff]
      intro h
      have := validWindows_map_fst c rows
      rw [h] at this
      rw [← this] at hs
      simp at hs
    have hvmem : (s, truncateWindow c.max_logs_per_window
        (rowsInBin (dayStart (minT rows)) c.window_size rows s)) ∈ validWindows c rows :=
      List.mem_filterMap.mpr ⟨s, hsg, by rw [if_pos hlen]⟩
    have hlk : (validWindows c rows).lookup s = some (truncateWindow c.max_logs_per_window
        (rowsInBin (dayStart (minT rows)) c.window_size rows s)) :=
      lookup_filterMap_if (gridBins c.window_size rows)
        (fun t => c.min_logs_per_window ≤
          (rowsInBin (dayStart (minT rows)) c.window_size rows t).length)
        (fun t => truncateWindow c.max_logs_per_window
          (rowsInBin (dayStart (minT rows)) c.window_size rows t))
        (gridBins_nodup _ hW rows) s hsg hlen
    have htne : truncateWindow c.max_logs_per_window
        (rowsInBin (dayStart (minT rows)) c.window_size rows s) ≠ [] := by
      apply truncateWindow_ne_nil
      intro hnil
      rw [hnil] at hlen
      simp at hlen
      omega
    obtain ⟨r, hrw⟩ := List.exists_mem_of_ne_nil _ htne
    have hrdfw : r ∈ dfwRows c rows := by
      rw [dfwRows]
      exact List.mem_flatten.mpr ⟨_, List.mem_map.mpr ⟨_, hvmem, rfl⟩, hrw⟩
    have hrbin : r ∈ rowsInBin (dayStart (minT rows)) c.window_size rows s :=
      truncateWindow_subset _ _ r hrw
    have hrrows : r ∈ rows := (List.mem_filter.mp hrbin).1
    have hreq : r.1 / c.window_size * c.window_size = s := by
      have h2 : binOf (dayStart (minT rows)) c.window_size r.1 = s := by
        simpa using (List.mem_filter.mp hrbin).2
      rw [← h2]
      exact (binOf_dayStart _ hW hdvd _ _
        (le_trans (dayStart_le _) (minT_le rows r hrrows))).symm
    have hsgdfw : s ∈ gridBins c.window_size (dfwRows c rows) := by
      have := bin_mem_gridBins c.window_size hW hdvd (dfwRows c rows) r hrdfw
      rwa [hreq] at this
    rw [ctwRow_ok c rows hv s,
      lookup_map_pair _ _ (gridBins_nodup _ hW _) s hsgdfw,
      dfw_filter c rows hW hdvd s, hlk]
    rfl
  · intro s hsi hsn
    have hv : ¬(validWindows c rows).isEmpty = true := by
      intro hemp
      rw [ctwIndex, create_time_windows, if_pos hemp] at hsi
      simp at hsi
    rw [ctwIndex_ok c rows hv] at hsi
    have hnone : (validWindows c rows).lookup s = none := by
      apply lookup_filterMap_none
      rintro t ht ⟨hpt, rfl⟩
      exact hsn (List.mem_filter.mpr ⟨ht, by simpa using hpt⟩)
    rw [ctwRow_ok c rows hv s,
      lookup_map_pair _ _ (gridBins_nodup _ hW _) s hsi,
      dfw_filter c rows hW hdvd s, hnone, Option.getD_none, hagg0]

/-- Witness for C7's amended claim at the concrete gap scenario: the
surviving window at 0 carries its aggregate, the dropped window at 120 is
an all-NaN row. -/
theorem ctw_window_gaps_amended_witness :
    ctwRow gapCfg gapRows 0 = some (aggWindow (numCols (dfwRows gapCfg gapRows))
      (truncateWindow gapCfg.max_logs_per_window
        (rowsInBin (dayStart (minT gapRows)) gapCfg.window_size gapRows 0))) ∧
    ctwRow gapCfg gapRows 120 =
      some (List.replicate (numCols (dfwRows gapCfg gapRows)) ⟨none, none, none, none⟩) :=
  ⟨(ctw_window_gaps_amended gapCfg gapRows (by decide) (by decide) (by decide)).1 0
      (by decide),
   (ctw_window_gaps_amended gapCfg gapRows (by decide) (by decide) (by decide)).2 120
      (by decide) (by decide)⟩

/-- Witness for C3's amended claim at one- and two-element columns. -/
theorem agg_std_amended_witness :
    (aggColumn [(7 : ℚ)]).std = none ∧
    (∃ s : ℝ, (aggColumn [(1 : ℚ), 3]).std = some s ∧ 0 ≤ s ∧
      s ^ 2 = ((([(1 : ℚ), 3].map
        (fun x => (x - [(1 : ℚ), 3].sum / ([(1 : ℚ), 3].length : ℚ)) ^ 2)).sum /
          (([(1 : ℚ), 3].length : ℚ) - 1) : ℚ) : ℝ)) :=
  ⟨(agg_std_amended [7]).1 rfl, (agg_std_amended [(1 : ℚ), 3]).2 (by norm_num)⟩

/-! Structural lemmas about the shared normalization loop. -/

theorem lookup_cons_self {β : Type} (k : String) (v : β) (l : List (String × β)) :
    ((k, v) :: l).lookup k = some v := by
  simp [List.lookup]

theorem lookup_cons_ne {β : Type} (k n : String) (v : β) (l : List (String × β))
    (h : k ≠ n) : ((n, v) :: l).lookup k = l.lookup k := by
  have hne : (k == n) = false := by simpa using h
  show (match k == n with
    | true => some v
    | false => l.lookup k) = l.lookup k
  rw [hne]

theorem normalizeWith_cons {ε β : Type} (fit : List ℚ → ε) (app : ε → List ℚ → β)
    (dflt : ε) (st : List (String × ε)) (n : String) (vs : List ℚ) (rest : Tbl) :
    normalizeWith fit app dflt st ((n, vs) :: rest) =
      ((normalizeWith fit app dflt
          (match st.lookup n with
           | some _ => st
           | none => st ++ [(n, fit vs)]) rest).1,
        (n, app (((match st.lookup n with
           | some _ => st
           | none => st ++ [(n, fit vs)]).lookup n).getD dflt) vs) ::
          (normalizeWith fit app dflt
            (match st.lookup n with
             | some _ => st
             | none => st ++ [(n, fit vs)]) rest).2) := rfl

theorem normalizeWith_stats_preserved {ε β : Type} (fit : List ℚ → ε)
    (app : ε → List ℚ → β) (dflt : ε) (df : Tbl) :
    ∀ (st : List (String × ε)) (cn : String), (st.lookup cn).isSome →
      (normalizeWith fit app dflt st df).1.lookup cn = st.lookup cn := by
  induction df with
  | nil => intro st cn _; rfl
  | cons col rest ih =>
    intro st cn h
    obtain ⟨n, vs⟩ := col
    rw [normalizeWith_cons]
    cases hn : st.lookup n with
    | some e => exact ih st cn h
    | none =>
      have hlook : ((st ++ [(n, fit vs)]).lookup cn) = st.lookup cn := by
        rw [List.lookup_append]
        obtain ⟨v, hv⟩ := Option.isSome_iff_exists.mp h
        rw [hv]
        rfl
      show (normalizeWith fit app dflt (st ++ [(n, fit vs)]) rest).1.lookup cn = st.lookup cn
      rw [ih _ cn (by rw [hlook]; exact h), hlook]

theorem normalizeWith_stats_inserted {ε β : Type} (fit : List ℚ → ε)
    (app : ε → List ℚ → β) (dflt : ε) (df : Tbl) :
    ∀ (st : List (String × ε)) (cn : String) (vs : List ℚ),
      st.lookup cn = none → df.lookup cn = some vs →
      (normalizeWith fit app dflt st df).1.lookup cn = some (fit vs) := by
  induction df with
  | nil => intro st cn vs _ hcol; simp [List.lookup] at hcol
  | cons col rest ih =>
    intro st cn vs hnone hcol
    obtain ⟨n, ws⟩ := col
    rw [normalizeWith_cons]
    by_cases hcn : cn = n
    · subst hcn
      have hws : ws = vs := by
        rw [lookup_cons_self] at hcol
        exact Option.some.inj hcol
      subst hws
      rw [hnone]
      have hlook : ((st ++ [(cn, fit ws)]).lookup cn) = some (fit ws) := by
        rw [List.lookup_append, hnone, lookup_cons_self]
        rfl
      show (normalizeWith fit app dflt (st ++ [(cn, fit ws)]) rest).1.lookup cn = _
      rw [normalizeWith_stats_preserved fit app dflt rest _ cn (by rw [hlook]; rfl), hlook]
    · have hcol' : rest.lookup cn = some vs := by
        rw [lookup_cons_ne cn n ws rest hcn] at hcol
        exact hcol
      cases hn : st.lookup n with
      | some e => exact ih st cn vs hnone hcol'
      | none =>
        apply ih _ cn vs _ hcol'
        rw [List.lookup_append, hnone, lookup_cons_ne cn n (fit ws) [] hcn]
        rfl

theorem normalizeWith_out_cached {ε β : Type} (fit : List ℚ → ε)
    (app : ε → List ℚ → β) (dflt : ε) (df : Tbl) :
    ∀ (st : List (String × ε)) (cn : String) (e : ε) (vs : List ℚ),
      st.lookup cn = some e → df.lookup cn = some vs →
      (normalizeWith fit app dflt st df).2.lookup cn = some (app e vs) := by
  induction df with
  | nil => intro st cn e vs _ hcol; simp [List.lookup] at hcol
  | cons col rest ih =>
    intro st cn e vs hst hcol
    obtain ⟨n, ws⟩ := col
    rw [normalizeWith_cons]
    by_cases hcn : cn = n
    · subst hcn
      have hws : ws = vs := by
        rw [lookup_cons_self] at hcol
        exact Option.some.inj hcol
      subst hws
      rw [hst]
      show ((cn, app ((st.lookup cn).getD dflt) ws) :: _).lookup cn = _
      rw [lookup_cons_self, hst]
      rfl
    · have hcol' : rest.lookup cn = some vs := by
        rw [lookup_cons_ne cn n ws rest hcn] at hcol
        exact hcol
      cases hn : st.lookup n with
      | some e2 =>
        show ((n, _) :: (normalizeWith fit app dflt st rest).2).lookup cn = _
        rw [lookup_cons_ne _ _ _ _ hcn]
        exact ih st cn e vs hst hcol'
      | none =>
        show ((n, _) :: (normalizeWith fit app dflt (st ++ [(n, fit ws)]) rest).2).lookup cn = _
        rw [lookup_cons_ne _ _ _ _ hcn]
        apply ih _ cn e vs _ hcol'
        rw [List.lookup_append, hst]
        rfl

theorem normalizeWith_out_first {ε β : Type} (fit : List ℚ → ε)
    (app : ε → List ℚ → β) (dflt : ε) (df : Tbl) :
    ∀ (st : List (String × ε)) (cn : String) (vs : List ℚ),
      st.lookup cn = none → df.lookup cn = some vs →
      (normalizeWith fit app dflt st df).2.lookup cn = some (app (fit vs) vs) := by
  induction df with
  | nil => intro st cn vs _ hcol; simp [List.lookup] at hcol
  | cons col rest ih =>
    intro st cn vs hnone hcol
    obtain ⟨n, ws⟩ := col
    rw [normalizeWith_cons]
    by_cases hcn : cn = n
    · subst hcn
      have hws : ws = vs := by
        rw [lookup_cons_self] at hcol
        exact Option.some.inj hcol
      subst hws
      rw [hnone]
      have hlook : ((st ++ [(cn, fit ws)]).lookup cn) = some (fit ws) := by
        rw [List.lookup_append, hnone, lookup_cons_self]
        rfl
      show ((cn, app (((st ++ [(cn, fit ws)]).lookup cn).getD dflt) ws) :: _).lookup cn = _
      rw [lookup_cons_self, hlook]
      rfl
    · have hcol' : rest.lookup cn = some vs := by
        rw [lookup_cons_ne cn n ws rest hcn] at hcol
        exact hcol
      cases hn : st.lookup n with
      | some e2 =>
        show ((n, _) :: (normalizeWith fit app dflt st rest).2).lookup cn = _
        rw [lookup_cons_ne _ _ _ _ hcn]
        exact ih st cn vs hnone hcol'
      | none =>
        show ((n, _) :: (normalizeWith fit app dflt (st ++ [(n, fit ws)]) rest).2).lookup cn = _
        rw [lookup_cons_ne _ _ _ _ hcn]
        apply ih _ cn vs _ hcol'
        rw [List.lookup_append, hnone, lookup_cons_ne cn n (fit ws) [] hcn]
        rfl

/-! Order facts about the column minimum and maximum. -/

theorem foldl_min_mem (x : ℚ) (xs : List ℚ) : xs.foldl min x ∈ x :: xs := by
  induction xs generalizing x with
  | nil => simp
  | cons b bs ih =>
    show bs.foldl min (min x b) ∈ x :: b :: bs
    rcases List.mem_cons.mp (ih (min x b)) with h1 | h2
    · rw [h1]
      rcases min_choice x b with hc | hc <;> rw [hc]
      · exact List.mem_cons_self _ _
      · exact List.mem_cons_of_mem _ (List.mem_cons_self _ _)
    · exact List.mem_cons_of_mem _ (List.mem_cons_of_mem _ h2)

theorem foldl_min_le (x : ℚ) (xs : List ℚ) : ∀ y ∈ x :: xs, xs.foldl min x ≤ y := by
  induction xs generalizing x with
  | nil =>
    intro y hy
    simp at hy
    simp [hy]
  | cons b bs ih =>
    intro y hy
    show bs.foldl min (min x b) ≤ y
    have hbase : bs.foldl min (min x b) ≤ min x b :=
      ih (min x b) (min x b) (List.mem_cons_self _ _)
    rcases List.mem_cons.mp hy with h1 | hy'
    · rw [h1]
      exact le_trans hbase (min_le_left _ _)
    · rcases List.mem_cons.mp hy' with h2 | hy''
      · rw [h2]
        exact le_trans hbase (min_le_right _ _)
      · exact ih (min x b) y (List.mem_cons_of_mem _ hy'')

theorem foldl_max_mem (x : ℚ) (xs : List ℚ) : xs.foldl max x ∈ x :: xs := by
  induction xs generalizing x with
  | nil => simp
  | cons b bs ih =>
    show bs.foldl max (max x b) ∈ x :: b :: bs
    rcases List.mem_cons.mp (ih (max x b)) with h1 | h2
    · rw [h1]
      rcases max_choice x b with hc | hc <;> rw [hc]
      · exact List.mem_cons_self _ _
      · exact List.mem_cons_of_mem _ (List.mem_cons_self _ _)
    · exact List.mem_cons_of_mem _ (List.mem_cons_of_mem _ h2)

theorem foldl_max_ge (x : ℚ) (xs : List ℚ) : ∀ y ∈ x :: xs, y ≤ xs.foldl max x := by
  induction xs generalizing x with
  | nil =>
    intro y hy
    simp at hy
    simp [hy]
  | cons b bs ih =>
    intro y hy
    show y ≤ bs.foldl max (max x b)
    have hbase : max x b ≤ bs.foldl max (max x b) :=
      ih (max x b) (max x b) (List.mem_cons_self _ _)
    rcases List.mem_cons.mp hy with h1 | hy'
    · rw [h1]
      exact le_trans (le_max_left _ _) hbase
    · rcases List.mem_cons.mp hy' with h2 | hy''
      · rw [h2]
        exact le_trans (le_max_right _ _) hbase
      · exact ih (max x b) y (List.mem_cons_of_mem _ hy'')

/-- C4: on a preprocessor with no cached statistics, minmax-normalizing a
column with at least two distinct values yields outputs in [0, 1], with
every occurrence of the column minimum mapped to 0 and of the column
maximum mapped to 1; a constant (or empty) column maps entirely to 0. -/
theorem minmax_first_call (df : Tbl) (cn : String) (vs : List ℚ)
    (hcol : df.lookup cn = some vs) :
    ∃ ws : List ℚ, (minmax_normalize [] df).2.lookup cn = some ws ∧
      ((∃ a ∈ vs, ∃ b ∈ vs, a ≠ b) →
        (∀ w ∈ ws, 0 ≤ w ∧ w ≤ 1) ∧
        (∀ (i : Nat) (v : ℚ), vs[i]? = some v → (∀ u ∈ vs, v ≤ u) → ws[i]? = some 0) ∧
        (∀ (i : Nat) (v : ℚ), vs[i]? = some v → (∀ u ∈ vs, u ≤ v) → ws[i]? = some 1)) ∧
      ((∀ a ∈ vs, ∀ b ∈ vs, a = b) → ∀ w ∈ ws, w = 0) := by
  refine ⟨mmApply (listMin vs) (listMax vs) vs,
    normalizeWith_out_first _ _ _ df [] cn vs rfl hcol, ?_, ?_⟩
  · rintro ⟨a, ha, b, hb, hab⟩
    rcases vs with _ | ⟨x, xs⟩
    · simp at ha
    have hm := foldl_min_le x xs
    have hM := foldl_max_ge x xs
    have hmM : xs.foldl min x < xs.foldl max x := by
      rcases lt_or_ge (xs.foldl min x) (xs.foldl max x) with h | h
      · exact h
      · exact absurd (le_antisymm
          (by linarith [hm b hb, hM a ha]) (by linarith [hm a ha, hM b hb])) hab
    have happ : mmApply (listMin (x :: xs)) (listMax (x :: xs)) (x :: xs) =
        (x :: xs).map
          (fun v => (v - xs.foldl min x) / (xs.foldl max x - xs.foldl min x)) := by
      show (if xs.foldl min x < xs.foldl max x
        then (x :: xs).map
          (fun v => (v - xs.foldl min x) / (xs.foldl max x - xs.foldl min x))
        else (x :: xs).map (fun _ => 0)) = _
      rw [if_pos hmM]
    rw [happ]
    refine ⟨?_, ?_, ?_⟩
    · intro w hw
      obtain ⟨v, hv, rfl⟩ := List.mem_map.mp hw
      constructor
      · apply div_nonneg
        · linarith [hm v hv]
        · linarith
      · rw [div_le_one (by linarith)]
        linarith [hM v hv]
    · intro i v hvi hvmin
      have hvmem : v ∈ x :: xs := List.getElem?_mem hvi
      have hveq : v = xs.foldl min x :=
        le_antisymm (hvmin _ (foldl_min_mem x xs)) (hm v hvmem)
      rw [List.getElem?_map, hvi]
      simp [hveq]
    · intro i v hvi hvmax
      have hvmem : v ∈ x :: xs := List.getElem?_mem hvi
      have hveq : v = xs.foldl max x :=
        le_antisymm (hM v hvmem) (hvmax _ (foldl_max_mem x xs))
      rw [List.getElem?_map, hvi]
      simp only [Option.map_some']
      rw [hveq, div_self (ne_of_gt (sub_pos.mpr hmM))]
  · intro hconst w hw
    rcases vs with _ | ⟨x, xs⟩
    · rw [show mmApply (listMin []) (listMax []) ([] : List ℚ) = [] from rfl] at hw
      simp at hw
    have hmM : ¬(xs.foldl min x < xs.foldl max x) := by
      rw [hconst _ (foldl_min_mem x xs) _ (foldl_max_mem x xs)]
      exact lt_irrefl _
    have happ : mmApply (listMin (x :: xs)) (listMax (x :: xs)) (x :: xs) =
        (x :: xs).map (fun _ => (0 : ℚ)) := by
      show (if xs.foldl min x < xs.foldl max x
        then (x :: xs).map
          (fun v => (v - xs.foldl min x) / (xs.foldl max x - xs.foldl min x))
        else (x :: xs).map (fun _ => 0)) = _
      rw [if_neg hmM]
    rw [happ] at hw
    obtain ⟨v, _, hv0⟩ := List.mem_map.mp hw
    exact hv0.symm

/-- Witness for C4 at the concrete table [("f", [1, 3, 2])]. -/
theorem minmax_first_call_witness :
    ∃ ws : List ℚ, (minmax_normalize [] [("f", [(1 : ℚ), 3, 2])]).2.lookup "f" = some ws ∧
      ((∃ a ∈ [(1 : ℚ), 3, 2], ∃ b ∈ [(1 : ℚ), 3, 2], a ≠ b) →
        (∀ w ∈ ws, 0 ≤ w ∧ w ≤ 1) ∧
        (∀ (i : Nat) (v : ℚ), [(1 : ℚ), 3, 2][i]? = some v →
          (∀ u ∈ [(1 : ℚ), 3, 2], v ≤ u) → ws[i]? = some 0) ∧
        (∀ (i : Nat) (v : ℚ), [(1 : ℚ), 3, 2][i]? = some v →
          (∀ u ∈ [(1 : ℚ), 3, 2], u ≤ v) → ws[i]? = some 1)) ∧
      ((∀ a ∈ [(1 : ℚ), 3, 2], ∀ b ∈ [(1 : ℚ), 3, 2], a = b) → ∀ w ∈ ws, w = 0) :=
  minmax_first_call [("f", [1, 3, 2])] "f" [1, 3, 2] rfl

/-- C5: per-column statistics are computed on the first normalization call
that sees the column and are reused, never recomputed or overwritten, by
any later call on the same instance — for both the minmax and the zscore
cache — and a later table's column is rescaled with the cached entry; only
load_feature_stats replaces the cache (wholesale). -/
theorem feature_stats_cached :
    (∀ (st : MMStats) (df : Tbl) (cn : String), (st.lookup cn).isSome →
      (minmax_normalize st df).1.lookup cn = st.lookup cn) ∧
    (∀ (st : MMStats) (df : Tbl) (cn : String) (vs : List ℚ),
      st.lookup cn = none → df.lookup cn = some vs →
      (minmax_normalize st df).1.lookup cn = some (listMin vs, listMax vs)) ∧
    (∀ (st : MMStats) (df : Tbl) (cn : String) (e : Option ℚ × Option ℚ) (vs : List ℚ),
      st.lookup cn = some e → df.lookup cn = some vs →
      (minmax_normalize st df).2.lookup cn = some (mmApply e.1 e.2 vs)) ∧
    (∀ (st : ZStats) (df : Tbl) (cn : String), (st.lookup cn).isSome →
      (zscore_normalize st df).1.lookup cn = st.lookup cn) ∧
    (∀ (st : ZStats) (df : Tbl) (cn : String) (vs : List ℚ),
      st.lookup cn = none → df.lookup cn = some vs →
      (zscore_normalize st df).1.lookup cn = some (listMeanOpt vs, listStdOpt vs)) ∧
    (∀ loaded current : MMStats, load_feature_stats loaded current = loaded) :=
  ⟨fun st df cn h => normalizeWith_stats_preserved _ _ _ df st cn h,
   fun st df cn vs h1 h2 => normalizeWith_stats_inserted _ _ _ df st cn vs h1 h2,
   fun st df cn e vs h1 h2 => normalizeWith_out_cached _ _ _ df st cn e vs h1 h2,
   fun st df cn h => normalizeWith_stats_preserved _ _ _ df st cn h,
   fun st df cn vs h1 h2 => normalizeWith_stats_inserted _ _ _ df st cn vs h1 h2,
   fun _ _ => rfl⟩

/-- Witness for C5 at concrete stats and tables. -/
theorem feature_stats_cached_witness :
    (minmax_normalize [("a", ((some 0 : Option ℚ), (some 2 : Option ℚ)))]
        [("a", [5])]).1.lookup "a" =
      [("a", ((some 0 : Option ℚ), (some 2 : Option ℚ)))].lookup "a" ∧
    (minmax_normalize [] [("b", [(1 : ℚ), 3])]).1.lookup "b" =
      some (listMin [(1 : ℚ), 3], listMax [(1 : ℚ), 3]) ∧
    (minmax_normalize [("a", ((some 0 : Option ℚ), (some 2 : Option ℚ)))]
        [("a", [5])]).2.lookup "a" = some (mmApply (some 0) (some 2) [5]) ∧
    (zscore_normalize [("a", ((some 0 : Option ℚ), (some 1 : Option ℝ)))]
        [("a", [5])]).1.lookup "a" =
      [("a", ((some 0 : Option ℚ), (some 1 : Option ℝ)))].lookup "a" ∧
    load_feature_stats [("c", ((none : Option ℚ), (none : Option ℚ)))]
      [("a", ((some 0 : Option ℚ), (some 2 : Option ℚ)))] = [("c", (none, none))] :=
  ⟨feature_stats_cached.1 _ _ "a" rfl,
   feature_stats_cached.2.1 _ _ "b" [1, 3] rfl rfl,
   feature_stats_cached.2.2.1 _ _ "a" (some 0, some 2) [5] rfl rfl,
   feature_stats_cached.2.2.2.1 _ _ "a" rfl,
   feature_stats_cached.2.2.2.2.2 _ _⟩

end DriftPre
